import Mathlib

/-!
Verification of the RecurrenceEngine specification against `src/app.py`
(Streamlit Birthday Board).

The Python source is shallowly embedded below.  Python `datetime.date`
values are modelled by `PyDate` (with the real `MINYEAR = 1` /
`MAXYEAR = 9999` construction range); a raised exception is modelled by
`Option.none` / a missing result; `bytes` results are modelled as
`String` (the source encodes UTF-8 text).  All definitions are
executable and kernel-reducible so that concrete witnesses evaluate by
`decide` or `rfl`.
-/

namespace BirthdayBoard

/-! ## Character and string utilities

Python string primitives used by the source (`str.strip`, `str.split`,
`str.count`, `in`, `int(...)`, `str.lower`, `str.replace(' ', '_')`,
`"\n".join`) are modelled by structurally recursive functions over
`String.data`, with the same semantics on the inputs that occur here.
-/

def isSpaceChar (c : Char) : Bool :=
  c = ' ' || c = '\t' || c = '\n' || c = '\r' || c = '\x0b' || c = '\x0c'

/-- Python `str.strip()`: remove leading and trailing whitespace. -/
def pyStrip (s : String) : String :=
  ⟨(s.data.dropWhile isSpaceChar).reverse.dropWhile isSpaceChar |>.reverse⟩

/-- Helper for `splitChar`: `acc` holds the current field, reversed. -/
def splitCharAux (sep : Char) : List Char → List Char → List String
  | [], acc => [⟨acc.reverse⟩]
  | c :: cs, acc =>
      if c = sep then ⟨acc.reverse⟩ :: splitCharAux sep cs []
      else splitCharAux sep cs (c :: acc)

/-- Python `s.split(sep)` for a one-character separator (keeps empty fields). -/
def splitChar (sep : Char) (s : String) : List String :=
  splitCharAux sep s.data []

/-- Python `s.count(c)` for a one-character needle. -/
def countChar (c : Char) (s : String) : Nat :=
  s.data.countP (fun x => x = c)

/-- Python `c in s` for a one-character needle. -/
def containsChar (c : Char) (s : String) : Bool :=
  s.data.any (fun x => x = c)

def isDigitChar (c : Char) : Bool := '0' ≤ c && c ≤ '9'

/-- Value of a string of decimal digits, most significant first. -/
def digitsVal (l : List Char) : Nat :=
  l.foldl (fun a c => 10 * a + (c.toNat - 48)) 0

/-- Python `int(s)` restricted to the nonnegative integers that can reach it
here: optional surrounding whitespace, an optional `+` sign, then decimal
digits.  `none` models a raised `ValueError`. -/
def pyIntNat (s : String) : Option Nat :=
  let t := (pyStrip s).data
  let t := match t with
    | '+' :: rest => rest
    | other => other
  if t ≠ [] ∧ t.all isDigitChar then some (digitsVal t) else none

def digitChar (n : Nat) : Char :=
  match n with
  | 0 => '0' | 1 => '1' | 2 => '2' | 3 => '3' | 4 => '4'
  | 5 => '5' | 6 => '6' | 7 => '7' | 8 => '8' | _ => '9'

/-- Decimal digits of `n`, most significant first (`f` is fuel, `≥ 1` and
sufficient because `n` shrinks by a factor of ten each step). -/
def natStrAux : Nat → Nat → List Char
  | 0, _ => []
  | f + 1, n => if n < 10 then [digitChar n] else natStrAux f (n / 10) ++ [digitChar (n % 10)]

/-- Python `str(n)` for a nonnegative integer. -/
def natStr (n : Nat) : String := ⟨natStrAux (n + 1) n⟩

/-- Python `str(i)` for an integer. -/
def intStr : Int → String
  | .ofNat n => natStr n
  | .negSucc n => "-" ++ natStr (n + 1)

/-- Python `f"{n:02d}"` for a nonnegative integer. -/
def pad2 (n : Nat) : String := if n < 10 then "0" ++ natStr n else natStr n

/-- Python `f"{n:04d}"`-style four-digit padding (as produced by `strftime "%Y"`). -/
def pad4 (n : Nat) : String :=
  if n < 10 then "000" ++ natStr n
  else if n < 100 then "00" ++ natStr n
  else if n < 1000 then "0" ++ natStr n
  else natStr n

/-- Python `"\n".join(lines)`. -/
def joinWithNl : List String → String
  | [] => ""
  | [l] => l
  | l :: ls => l ++ "\n" ++ joinWithNl ls

/-- ASCII lowering, as applied by case-insensitive matching (`re.IGNORECASE`)
and modelling `str.lower` on the ASCII inputs that occur here. -/
def lowerChar (c : Char) : Char :=
  match c with
  | 'A' => 'a' | 'B' => 'b' | 'C' => 'c' | 'D' => 'd' | 'E' => 'e' | 'F' => 'f'
  | 'G' => 'g' | 'H' => 'h' | 'I' => 'i' | 'J' => 'j' | 'K' => 'k' | 'L' => 'l'
  | 'M' => 'm' | 'N' => 'n' | 'O' => 'o' | 'P' => 'p' | 'Q' => 'q' | 'R' => 'r'
  | 'S' => 's' | 'T' => 't' | 'U' => 'u' | 'V' => 'v' | 'W' => 'w' | 'X' => 'x'
  | 'Y' => 'y' | 'Z' => 'z' | other => other

def lowerStr (s : String) : String := ⟨s.data.map lowerChar⟩

/-- Python `s.replace(' ', '_')` (a one-character-to-one-character replace). -/
def underscoreSpaces (s : String) : String :=
  ⟨s.data.map (fun c => if c = ' ' then '_' else c)⟩

/-- Strict lexicographic comparison of character lists by code point:
Python `<` on `str`, as used by the `name` sort key. -/
def lexLt : List Char → List Char → Bool
  | [], [] => false
  | [], _ :: _ => true
  | _ :: _, [] => false
  | a :: as, b :: bs => a < b || (a == b && lexLt as bs)

def strLtB (a b : String) : Bool := lexLt a.data b.data

/-! ## The date model

`PyDate` models `datetime.date`.  `dateOk` is the constructor's validity
check (proleptic Gregorian calendar, years 1–9999); `tryDate` models
`date(y, m, d)` with `none` for a raised `ValueError`.  `toOrdinal`
models `date.toordinal()`, through which `(a - b).days` is
`toOrdinal a - toOrdinal b`.
-/

structure PyDate where
  year : Nat
  month : Nat
  day : Nat
deriving DecidableEq

/-- Gregorian leap-year test, as implemented by `datetime`. -/
def isLeap (y : Nat) : Bool := (y % 4 == 0 && y % 100 != 0) || (y % 400 == 0)

/-- Length of month `m` (1–12) with explicit leap flag; 0 for an invalid month. -/
def mlB (leap : Bool) (m : Nat) : Nat :=
  match m with
  | 1 => 31 | 2 => if leap then 29 else 28 | 3 => 31 | 4 => 30 | 5 => 31 | 6 => 30
  | 7 => 31 | 8 => 31 | 9 => 30 | 10 => 31 | 11 => 30 | 12 => 31 | _ => 0

def monthLen (y m : Nat) : Nat := mlB (isLeap y) m

/-- Days in year `y` strictly before month `m`, with explicit leap flag. -/
def dbmB (leap : Bool) (m : Nat) : Nat :=
  (match m with
  | 1 => 0 | 2 => 31 | 3 => 59 | 4 => 90 | 5 => 120 | 6 => 151 | 7 => 181
  | 8 => 212 | 9 => 243 | 10 => 273 | 11 => 304 | 12 => 334 | _ => 365)
  + (if 3 ≤ m ∧ leap then 1 else 0)

def daysBeforeMonth (y m : Nat) : Nat := dbmB (isLeap y) m

/-- Validity check of the `datetime.date` constructor. -/
def dateOk (y m d : Nat) : Bool :=
  1 ≤ y && y ≤ 9999 && 1 ≤ m && m ≤ 12 && 1 ≤ d && d ≤ monthLen y m

def wf (dt : PyDate) : Bool := dateOk dt.year dt.month dt.day

/-- `date(y, m, d)`: `none` models a raised `ValueError`. -/
def tryDate (y m d : Nat) : Option PyDate :=
  if dateOk y m d then some ⟨y, m, d⟩ else none

/-- Python `<` on dates (componentwise lexicographic). -/
def dateLt (a b : PyDate) : Bool :=
  a.year < b.year ||
    (a.year == b.year && (a.month < b.month || (a.month == b.month && a.day < b.day)))

/-- Non-strict counterpart of `dateLt`. -/
def dateLe (a b : PyDate) : Bool :=
  a.year < b.year ||
    (a.year == b.year && (a.month < b.month || (a.month == b.month && a.day ≤ b.day)))

/-- Number of leap years among `1, ..., n`. -/
def leapsAmong (n : Nat) : Nat := n / 4 - n / 100 + n / 400

/-- `date.toordinal()`: day number with `0001-01-01` as day 1. -/
def toOrdinal (dt : PyDate) : Nat :=
  365 * (dt.year - 1) + leapsAmong (dt.year - 1) + daysBeforeMonth dt.year dt.month + dt.day

/-- `(a - b).days` for dates (`timedelta.days` of an exact date difference). -/
def daysDiff (a b : PyDate) : Int := (toOrdinal a : Int) - (toOrdinal b : Int)

/-- The length of a year in days. -/
def yearLen (y : Nat) : Nat := if isLeap y then 366 else 365

/-- Ordinal of January 1 of year `y`, minus one. -/
def ordYS (y : Nat) : Nat := 365 * (y - 1) + leapsAmong (y - 1)

/-- The `BirthdayRecord` invariant of the specification: `(month, day)`
forms a calendar date that exists in at least one year (equivalently,
valid in a leap year). -/
def validMD (m d : Nat) : Bool := 1 ≤ m && m ≤ 12 && 1 ≤ d && d ≤ mlB true m

/-- The specification's notion of a date on which the `(month, day)`
record occurs: the month and day match, "with Feb 29 mapped to Feb 28 in
non-leap target years". -/
def occursOn (m d : Nat) (dt : PyDate) : Prop :=
  (dt.month = m ∧ dt.day = d) ∨
    (m = 2 ∧ d = 29 ∧ isLeap dt.year = false ∧ dt.month = 2 ∧ dt.day = 28)

/-! ## `Person.next_birthday` and `Person.turning_age` (src/app.py lines 44–73) -/

/-- The `try date(y, m, d) / except ValueError` block of `next_birthday`:
on failure, substitute Feb 28 when `(m, d) = (2, 29)`, otherwise re-raise
(`none`).  The substituted construction can itself fail (year out of
range), in which case that error propagates, exactly as in the source. -/
def candidateIn (y m d : Nat) : Option PyDate :=
  match tryDate y m d with
  | some c => some c
  | none => if m = 2 ∧ d = 29 then tryDate y 2 28 else none

/-- `Person.next_birthday(today)`.  `none` models a propagated `ValueError`. -/
def next_birthday (m d : Nat) (today : PyDate) : Option PyDate :=
  match candidateIn today.year m d with
  | none => none
  | some c => if dateLt c today then candidateIn (today.year + 1) m d else some c

/-- `Person.turning_age(today)`: outer `none` models a propagated error,
`some none` models the Python `None` result for a year-less record. -/
def turning_age (year : Option Nat) (m d : Nat) (today : PyDate) : Option (Option Int) :=
  match year with
  | none => some none
  | some yr => (next_birthday m d today).map (fun nb => some ((nb.year : Int) - (yr : Int)))

/-! ## `parse_date_cell` (src/app.py lines 76–100) -/

/-- Model of the third-party `dateutil.parser.parse(s, dayfirst=False,
yearfirst=True)` call, restricted to the purely numeric input shapes this
development evaluates it on: `M/D` (two slash-separated numbers, the year
filled in from the parser's default, i.e. the current date),
`M/D/Y` with a four-digit year, and `Y-M-D` with a four-digit year first.
Validity is the `datetime.date` range check.  `none` models a raised
parse error, or an input shape outside this restricted model. -/
def dateutilParse (defaultYear : Nat) (s : String) : Option (Nat × Nat × Nat) :=
  match (splitChar '/' s).map pyIntNat with
  | [some a, some b] =>
      if dateOk defaultYear a b then some (defaultYear, a, b) else none
  | [some a, some b, some c] =>
      if 31 < c ∧ dateOk c a b then some (c, a, b) else none
  | _ =>
      match (splitChar '-' s).map pyIntNat with
      | [some a, some b, some c] =>
          if 31 < a ∧ dateOk a b c then some (a, b, c) else none
      | _ => none

/-- `parse_date_cell(cell)`, returning `(month, day, year?)`; `none` models a
raised exception (`ValueError`, or an unparseable cell).  `defaultYear`
makes explicit the current year that `dateutil` would read from the
clock.  Note the two-field fast path (`"-" in s and len(s.split("-")) ==
2`) converts the two fields with `int` and performs no calendar
validation, exactly as in the source. -/
def parse_date_cell (defaultYear : Nat) (cell : Option String) : Option (Nat × Nat × Option Nat) :=
  match cell with
  | none => none
  | some raw =>
    let s := pyStrip raw
    if containsChar '-' s ∧ (splitChar '-' s).length = 2 then
      match (splitChar '-' s).map pyIntNat with
      | [some m, some d] => some (m, d, none)
      | _ => none
    else
      match dateutilParse defaultYear s with
      | none => none
      | some (y, m, d) =>
        if countChar '-' s = 1 ∨ (containsChar '/' s ∧ countChar '/' s = 1) then
          some (m, d, none)
        else
          some (m, d, some y)

/-! ## `load_birthdays` (src/app.py lines 104–145)

The CSV I/O and `date.today()` are the caller's explicit inputs here: a
raw row is the three text fields of a CSV line, `today` is the reference
date.  Rows with an empty name or an unparseable date are skipped (the
source catches the parse exception); a `ValueError` escaping
`next_birthday` is *not* caught by the source, so it aborts the whole
load (`none`).  The final `sort_values(["days_until", "name"])` is
modelled by a comparison sort with the same key.
-/

structure RawRow where
  name : String
  date : Option String
  notes : String

structure Row where
  name : String
  month : Nat
  day : Nat
  year : Option Nat
  notes : String
  next_date : PyDate
  days_until : Int
  turning : Option Int
  is_today : Bool
deriving DecidableEq

/-- One iteration of the row loop after a successful parse: builds the
record dict, or propagates (`none`) an error from `next_birthday` /
`turning_age`. -/
def mkRecord (name notes : String) (m d : Nat) (year : Option Nat) (today : PyDate) :
    Option Row :=
  match next_birthday m d today, turning_age year m d today with
  | some nb, some t =>
      some { name := name, month := m, day := d, year := year, notes := notes,
             next_date := nb, days_until := daysDiff nb today, turning := t,
             is_today := daysDiff nb today == 0 }
  | _, _ => none

/-- The row loop of `load_birthdays` (before sorting). -/
def buildRows (today : PyDate) : List RawRow → Option (List Row)
  | [] => some []
  | raw :: rest =>
    let name := pyStrip raw.name
    if name = "" then buildRows today rest
    else
      match parse_date_cell today.year raw.date with
      | none => buildRows today rest
      | some (m, d, y) =>
        match mkRecord name (pyStrip raw.notes) m d y today with
        | none => none
        | some r => (buildRows today rest).map (fun rs => r :: rs)

/-- Sort key of `out.sort_values(["days_until", "name"])`: `days_until`
ascending, then `name` ascending. -/
def rowLe (a b : Row) : Bool :=
  a.days_until < b.days_until ||
    (a.days_until == b.days_until && !(strLtB b.name a.name))

/-- `rowLe` as a decidable relation, for the sort. -/
def rowLeP (a b : Row) : Prop := rowLe a b = true

instance : DecidableRel rowLeP := fun a b => inferInstanceAs (Decidable (rowLe a b = true))

/-- `load_birthdays`: parse all rows against `today`, then sort. -/
def load_birthdays (today : PyDate) (rows : List RawRow) : Option (List Row) :=
  (buildRows today rows).map (List.insertionSort rowLeP)

/-! ## The filter block (src/app.py lines 241–249)

`df["name"].str.contains(query, case=False, na=False)` compiles `query`
as a *regular expression* (the pandas default `regex=True`) and tests
`re.search` with `re.IGNORECASE`.  The regular-expression dialect is
modelled for the fragment whose only metacharacter is `.` (match any
character); a query containing any other `re` metacharacter is outside
the model (`none`).  Case-insensitivity is modelled by ASCII-lowering
both sides.
-/

inductive RTok
  | lit (c : Char)
  | dot
deriving DecidableEq

/-- `re` metacharacters other than `.` (unmodelled). -/
def isMetaChar (c : Char) : Bool :=
  c = '\\' || c = '^' || c = '$' || c = '*' || c = '+' || c = '?' ||
  c = '(' || c = ')' || c = '[' || c = ']' || c = '\x7b' || c = '\x7d' || c = '|'

/-- A pattern character that stands only for itself: not a metacharacter
and not the `.` wildcard. -/
def goodChar (c : Char) : Bool := !(isMetaChar c) && c != '.'

/-- Compile a pattern: `.` becomes the wildcard, other non-metacharacters
match literally; any other metacharacter leaves the model. -/
def reParseAux : List Char → Option (List RTok)
  | [] => some []
  | c :: cs =>
      if isMetaChar c then none
      else (reParseAux cs).map (fun ts => (if c = '.' then RTok.dot else RTok.lit c) :: ts)

/-- Does the token list match a prefix of `cs`? -/
def matchPre : List RTok → List Char → Bool
  | [], _ => true
  | _ :: _, [] => false
  | t :: ts, c :: cs =>
      (match t with
       | RTok.dot => true
       | RTok.lit a => a == c) && matchPre ts cs

/-- `re.search`: does the token list match anywhere in the text? -/
def reSearch (ts : List RTok) : List Char → Bool
  | [] => matchPre ts []
  | c :: cs => matchPre ts (c :: cs) || reSearch ts cs

/-- The row predicate of the filter mask: query found (case-insensitively)
in `name` or in `notes`. -/
def rowMatches (ts : List RTok) (r : Row) : Bool :=
  reSearch ts (lowerStr r.name).data || reSearch ts (lowerStr r.notes).data

/-- The filter block: the query mask, then (when `maxDays` is given, i.e.
"only show upcoming") the `days_until ≤ soon_days` mask.  `none` when the
query leaves the modelled regular-expression fragment. -/
def filterRecords (rows : List Row) (query : String) (maxDays : Option Int) :
    Option (List Row) :=
  match reParseAux (lowerStr query).data with
  | none => none
  | some ts =>
    let m := rows.filter (rowMatches ts)
    some (match maxDays with
      | none => m
      | some k => m.filter (fun r => decide (r.days_until ≤ k)))

/-- Case-insensitive literal substring test, following the specification's
words ("case-insensitive substring match of `query` against `name` OR
`notes`"), for comparison with the implemented behaviour. -/
def isSubListOf : List Char → List Char → Bool
  | [], _ => true
  | _ :: _, [] => false
  | needle, c :: cs => List.isPrefixOf needle (c :: cs) || isSubListOf needle cs

def substrCI (q s : String) : Bool := isSubListOf (lowerStr q).data (lowerStr s).data

/-- The specification's filter semantics: literal case-insensitive
substring match plus the `days_until` cut, in one pass. -/
def specFilter (rows : List Row) (query : String) (maxDays : Option Int) : List Row :=
  rows.filter (fun r =>
    (substrCI query r.name || substrCI query r.notes) &&
      (match maxDays with
       | none => true
       | some k => decide (r.days_until ≤ k)))

/-! ## `make_ics` (src/app.py lines 166–202)

Rows produced by `load_birthdays` always carry their `month` and `day`
(the source appends them to every record), so the `pd.isna` fallbacks to
`next_date` on those two fields are dead for its only caller and the
model reads the fields directly.  The result `bytes` are modelled as the
decoded string.
-/

/-- `d.strftime("%Y%m%d")`. -/
def icsDt (dt : PyDate) : String := pad4 dt.year ++ pad2 dt.month ++ pad2 dt.day

/-- The event identifier: built from the name and the canonical
month/day only. -/
def uidOf (name : String) (m d : Nat) : String :=
  underscoreSpaces name ++ "--" ++ pad2 m ++ pad2 d ++ "@birthdayboard"

def uidLine (r : Row) : String := "UID:" ++ uidOf r.name r.month r.day

def summaryLine (r : Row) : String :=
  "SUMMARY:" ++ "🎂 " ++ r.name ++
    (match r.turning with
     | some t => " turns " ++ intStr t
     | none => "")

def rruleLine (m d : Nat) : String :=
  "RRULE:FREQ=YEARLY;BYMONTH=" ++ natStr m ++ ";BYMONTHDAY=" ++ natStr d

/-- The seven lines of one VEVENT block. -/
def eventLines (r : Row) : List String :=
  ["BEGIN:VEVENT",
   uidLine r,
   "DTSTART;VALUE=DATE:" ++ icsDt r.next_date,
   rruleLine r.month r.day,
   summaryLine r,
   "DESCRIPTION:" ++ r.notes,
   "END:VEVENT"]

def headerLines (cal_name : String) : List String :=
  ["BEGIN:VCALENDAR", "VERSION:2.0", "X-WR-CALNAME:" ++ cal_name,
   "PRODID:-//BirthdayBoard//Streamlit//EN"]

/-- `make_ics(df, cal_name)`: empty input short-circuits to the empty
byte string, otherwise envelope, one block per row, and the closing line,
joined by `"\n"`. -/
def make_ics (rows : List Row) (cal_name : String) : String :=
  if rows.isEmpty then ""
  else joinWithNl (headerLines cal_name ++ rows.flatMap eventLines ++ ["END:VCALENDAR"])

/-- The lines of a document (inverse of `"\n".join` on newline-free lines). -/
def splitLines (s : String) : List String := splitChar '\n' s

/-- Number of event blocks a calendar document contains, measured on the
document text as the specification's round-trip property reads it: one
block per `BEGIN:VEVENT` line. -/
def countBlocks (doc : String) : Nat := (splitLines doc).count "BEGIN:VEVENT"

/-- No newline occurs in the string (text that `"\n".join` keeps on one line). -/
def noNl (s : String) : Bool := s.data.all (fun c => c ≠ '\n')

/-! ## Arithmetic facts about the month tables -/

theorem mlB_le_31 (l : Bool) (m : Nat) : mlB l m ≤ 31 := by
  have key : ∀ b ∈ [false, true], ∀ m2 ∈ List.range 13, mlB b m2 ≤ 31 := by decide
  by_cases hm : m < 13
  · cases l
    · exact key false (by decide) m (List.mem_range.mpr hm)
    · exact key true (by decide) m (List.mem_range.mpr hm)
  · have : mlB l m = 0 := by
      unfold mlB
      split <;> omega
    omega

theorem dbmB_add_mlB_le (l : Bool) (m : Nat) (h1 : 1 ≤ m) (h2 : m ≤ 12) :
    dbmB l m + mlB l m ≤ if l then 366 else 365 := by
  have key : ∀ b ∈ [false, true], ∀ m2 ∈ List.range 13,
      1 ≤ m2 → dbmB b m2 + mlB b m2 ≤ if b then 366 else 365 := by decide
  cases l
  · exact key false (by decide) m (List.mem_range.mpr (by omega)) h1
  · exact key true (by decide) m (List.mem_range.mpr (by omega)) h1

theorem dbmB_mono (l : Bool) (m1 m2 : Nat) (h1 : 1 ≤ m1) (h12 : m1 < m2) (h2 : m2 ≤ 12) :
    dbmB l m1 + mlB l m1 ≤ dbmB l m2 := by
  have key : ∀ b ∈ [false, true], ∀ x ∈ List.range 13, ∀ y ∈ List.range 13,
      1 ≤ x → x < y → dbmB b x + mlB b x ≤ dbmB b y := by decide
  cases l
  · exact key false (by decide) m1 (List.mem_range.mpr (by omega))
      m2 (List.mem_range.mpr (by omega)) h1 h12
  · exact key true (by decide) m1 (List.mem_range.mpr (by omega))
      m2 (List.mem_range.mpr (by omega)) h1 h12

theorem dbmB_leap_cmp (m : Nat) (h : m ≤ 12) :
    dbmB false m ≤ dbmB true m ∧ dbmB true m ≤ dbmB false m + 1 := by
  have key : ∀ x ∈ List.range 13, dbmB false x ≤ dbmB true x ∧ dbmB true x ≤ dbmB false x + 1 := by
    decide
  exact key m (List.mem_range.mpr (by omega))

/-- The day-of-year (`dbmB l m + d`) of a valid date is between 1 and the
year length. -/
theorem yd_bounds (l : Bool) (m d : Nat) (h1 : 1 ≤ m) (h2 : m ≤ 12) (h3 : 1 ≤ d)
    (h4 : d ≤ mlB l m) : 1 ≤ dbmB l m + d ∧ dbmB l m + d ≤ if l then 366 else 365 := by
  have := dbmB_add_mlB_le l m h1 h2
  constructor
  · omega
  · split at this <;> split <;> omega

/-- Same-year strict monotonicity of the day-of-year in the
(month, day) lexicographic order. -/
theorem yd_lt_of_lex (l : Bool) (m1 d1 m2 d2 : Nat) (h1 : 1 ≤ m1) (h2 : m2 ≤ 12)
    (hd1 : d1 ≤ mlB l m1) (hd2 : 1 ≤ d2)
    (hlex : m1 < m2 ∨ (m1 = m2 ∧ d1 < d2)) :
    dbmB l m1 + d1 < dbmB l m2 + d2 := by
  rcases hlex with hm | ⟨hm, hd⟩
  · have := dbmB_mono l m1 m2 h1 hm h2
    omega
  · subst hm
    omega

/-- Same-year monotonicity (non-strict form). -/
theorem yd_le_of_lex (l : Bool) (m1 d1 m2 d2 : Nat) (h1 : 1 ≤ m1) (h2 : m2 ≤ 12)
    (hd1 : d1 ≤ mlB l m1) (hd2 : 1 ≤ d2)
    (hlex : m1 < m2 ∨ (m1 = m2 ∧ d1 ≤ d2)) :
    dbmB l m1 + d1 ≤ dbmB l m2 + d2 := by
  rcases hlex with hm | ⟨hm, hd⟩
  · have := dbmB_mono l m1 m2 h1 hm h2
    omega
  · subst hm
    omega

/-! ## Leap years and ordinals -/

theorem isLeap_iff (y : Nat) : isLeap y = true ↔ ((4 ∣ y ∧ ¬ 100 ∣ y) ∨ 400 ∣ y) := by
  simp only [isLeap, Bool.or_eq_true, Bool.and_eq_true, beq_iff_eq, bne_iff_ne, ne_eq]
  constructor <;> intro h <;> omega

theorem isLeap_succ_of_isLeap (y : Nat) (h : isLeap y = true) : isLeap (y + 1) = false := by
  rw [isLeap_iff] at h
  by_contra hc
  rw [Bool.not_eq_false, isLeap_iff] at hc
  omega

theorem leapsAmong_succ (n : Nat) :
    leapsAmong (n + 1) = leapsAmong n + (if isLeap (n + 1) then 1 else 0) := by
  have e4 := Nat.succ_div n 4
  have e100 := Nat.succ_div n 100
  have e400 := Nat.succ_div n 400
  have hA : n / 100 ≤ n / 4 := Nat.div_le_div_left (by norm_num) (by norm_num)
  have hB : n / 400 ≤ n / 100 := Nat.div_le_div_left (by norm_num) (by norm_num)
  have hleap := isLeap_iff (n + 1)
  unfold leapsAmong
  rw [e4, e100, e400]
  by_cases p4 : 4 ∣ (n + 1) <;> by_cases p100 : 100 ∣ (n + 1) <;> by_cases p400 : 400 ∣ (n + 1) <;>
    simp only [p4, p100, p400, if_true, if_false, iff_true, iff_false, if_pos, if_neg,
      not_true_eq_false, not_false_eq_true] <;>
    first
      | (exfalso; omega)
      | (have hl : isLeap (n + 1) = true := by rw [isLeap_iff]; tauto
         simp only [hl, if_true]
         omega)
      | (have hl : isLeap (n + 1) = false := by
           rw [Bool.eq_false_iff, ne_eq, isLeap_iff]
           tauto
         simp only [hl, if_false, Bool.false_eq_true]
         omega)

theorem toOrdinal_eq (dt : PyDate) :
    toOrdinal dt = ordYS dt.year + (dbmB (isLeap dt.year) dt.month + dt.day) := by
  unfold toOrdinal ordYS daysBeforeMonth
  omega

theorem ordYS_succ (y : Nat) (h : 1 ≤ y) :
    ordYS (y + 1) = ordYS y + (if isLeap y then 366 else 365) := by
  obtain ⟨n, rfl⟩ : ∃ n, y = n + 1 := ⟨y - 1, by omega⟩
  have hstep := leapsAmong_succ n
  unfold ordYS
  simp only [Nat.add_sub_cancel]
  by_cases hl : isLeap (n + 1) = true
  · simp only [hl, if_true] at hstep ⊢
    omega
  · rw [Bool.not_eq_true] at hl
    simp [hl] at hstep ⊢
    omega

theorem ordYS_mono (y1 y2 : Nat) (h1 : 1 ≤ y1) (h : y1 < y2) :
    ordYS y1 + (if isLeap y1 then 366 else 365) ≤ ordYS y2 := by
  induction y2 with
  | zero => omega
  | succ n ih =>
    by_cases hn : y1 < n
    · have := ih hn
      have hs := ordYS_succ n (by omega)
      split at hs <;> omega
    · have : y1 = n := by omega
      subst this
      rw [ordYS_succ y1 h1]

/-! ## Bridging the boolean date predicates to propositions -/

theorem dateLt_iff (a b : PyDate) : dateLt a b = true ↔
    a.year < b.year ∨ (a.year = b.year ∧
      (a.month < b.month ∨ (a.month = b.month ∧ a.day < b.day))) := by
  simp [dateLt]

theorem dateLe_iff (a b : PyDate) : dateLe a b = true ↔
    a.year < b.year ∨ (a.year = b.year ∧
      (a.month < b.month ∨ (a.month = b.month ∧ a.day ≤ b.day))) := by
  simp [dateLe]

theorem dateOk_iff (y m d : Nat) : dateOk y m d = true ↔
    1 ≤ y ∧ y ≤ 9999 ∧ 1 ≤ m ∧ m ≤ 12 ∧ 1 ≤ d ∧ d ≤ mlB (isLeap y) m := by
  simp [dateOk, monthLen, and_assoc]

theorem wf_iff (dt : PyDate) : wf dt = true ↔
    1 ≤ dt.year ∧ dt.year ≤ 9999 ∧ 1 ≤ dt.month ∧ dt.month ≤ 12 ∧
      1 ≤ dt.day ∧ dt.day ≤ mlB (isLeap dt.year) dt.month := by
  unfold wf
  exact dateOk_iff dt.year dt.month dt.day

theorem validMD_iff (m d : Nat) : validMD m d = true ↔
    1 ≤ m ∧ m ≤ 12 ∧ 1 ≤ d ∧ d ≤ mlB true m := by
  simp [validMD, and_assoc]

/-! ## Ordinal monotonicity on valid dates -/

theorem toOrdinal_lt (a b : PyDate) (ha : wf a = true) (hb : wf b = true)
    (h : dateLt a b = true) : toOrdinal a < toOrdinal b := by
  rw [wf_iff] at ha hb
  rw [dateLt_iff] at h
  rw [toOrdinal_eq a, toOrdinal_eq b]
  rcases h with hy | ⟨hy, hlex⟩
  · have hub := (yd_bounds (isLeap a.year) a.month a.day ha.2.2.1 ha.2.2.2.1
      ha.2.2.2.2.1 ha.2.2.2.2.2).2
    have hlb := (yd_bounds (isLeap b.year) b.month b.day hb.2.2.1 hb.2.2.2.1
      hb.2.2.2.2.1 hb.2.2.2.2.2).1
    have hm := ordYS_mono a.year b.year ha.1 hy
    split at hub <;> split at hm <;> omega
  · rw [hy]
    have := yd_lt_of_lex (isLeap b.year) a.month a.day b.month b.day
      ha.2.2.1 hb.2.2.2.1 (by rw [← hy]; exact ha.2.2.2.2.2) hb.2.2.2.2.1 hlex
    omega

theorem toOrdinal_le (a b : PyDate) (ha : wf a = true) (hb : wf b = true)
    (h : dateLe a b = true) : toOrdinal a ≤ toOrdinal b := by
  rw [dateLe_iff] at h
  rcases h with hy | ⟨hy, hm | ⟨hm, hd⟩⟩
  · exact le_of_lt (toOrdinal_lt a b ha hb (by rw [dateLt_iff]; left; exact hy))
  · exact le_of_lt (toOrdinal_lt a b ha hb (by rw [dateLt_iff]; right; exact ⟨hy, Or.inl hm⟩))
  · by_cases hde : a.day = b.day
    · have : a = b := by
        cases a
        cases b
        simp_all
      rw [this]
    · exact le_of_lt (toOrdinal_lt a b ha hb
        (by rw [dateLt_iff]; right; exact ⟨hy, Or.inr ⟨hm, by omega⟩⟩))

/-! ## Facts about `candidateIn` and `next_birthday` -/

theorem mlB_eq_of_ne2 (l : Bool) (m : Nat) (h : m ≤ 12) (hne : m ≠ 2) :
    mlB l m = mlB true m := by
  have key : ∀ b ∈ [false, true], ∀ x ∈ List.range 13, x ≠ 2 → mlB b x = mlB true x := by decide
  cases l
  · exact key false (by decide) m (List.mem_range.mpr (by omega)) hne
  · exact key true (by decide) m (List.mem_range.mpr (by omega)) hne

theorem mlB_two_ge (l : Bool) : 28 ≤ mlB l 2 := by cases l <;> decide

/-- Inversion: what a successful `candidateIn` returns. -/
theorem cand_spec (y m d : Nat) (c : PyDate) (h : candidateIn y m d = some c) :
    wf c = true ∧ c.year = y ∧
      ((c = ⟨y, m, d⟩ ∧ dateOk y m d = true) ∨
        (m = 2 ∧ d = 29 ∧ c = ⟨y, 2, 28⟩ ∧ dateOk y m d = false ∧ dateOk y 2 28 = true)) := by
  unfold candidateIn tryDate at h
  by_cases h1 : dateOk y m d = true
  · simp only [h1, if_true] at h
    obtain rfl : (⟨y, m, d⟩ : PyDate) = c := by injection h
    exact ⟨h1, rfl, Or.inl ⟨rfl, h1⟩⟩
  · rw [Bool.not_eq_true] at h1
    simp only [h1, Bool.false_eq_true, if_false] at h
    by_cases h2 : m = 2 ∧ d = 29
    · simp only [h2, if_true] at h
      by_cases h3 : dateOk y 2 28 = true
      · simp only [h3, if_true] at h
        obtain rfl : (⟨y, 2, 28⟩ : PyDate) = c := by injection h
        exact ⟨h3, rfl, Or.inr ⟨h2.1, h2.2, rfl, h1, h3⟩⟩
      · rw [Bool.not_eq_true] at h3
        simp [h3] at h
    · simp [h2] at h

/-- Totality: for a year in the supported range and a month/day satisfying
the record invariant, the candidate construction (with its Feb 29 → Feb 28
recovery) succeeds. -/
theorem cand_total (y m d : Nat) (hy1 : 1 ≤ y) (hy2 : y ≤ 9999) (hv : validMD m d = true) :
    ∃ c, candidateIn y m d = some c := by
  rw [validMD_iff] at hv
  by_cases h1 : dateOk y m d = true
  · refine ⟨⟨y, m, d⟩, ?_⟩
    unfold candidateIn tryDate
    simp [h1]
  · have hcase : d ≤ mlB (isLeap y) m ∨ (m = 2 ∧ d = 29 ∧ isLeap y = false) := by
      cases hy : isLeap y
      · by_cases hm2 : m = 2
        · subst hm2
          by_cases hd29 : d = 29
          · exact Or.inr ⟨rfl, hd29, rfl⟩
          · left
            have : mlB true 2 = 29 := by decide
            have : mlB false 2 = 28 := by decide
            omega
        · left
          rw [mlB_eq_of_ne2 false m hv.2.1 hm2]
          exact hv.2.2.2
      · left
        exact hv.2.2.2
    rcases hcase with hle | ⟨hm2, hd29, hnl⟩
    · exfalso
      apply h1
      rw [dateOk_iff]
      exact ⟨hy1, hy2, hv.1, hv.2.1, hv.2.2.1, hle⟩
    · subst hm2
      subst hd29
      refine ⟨⟨y, 2, 28⟩, ?_⟩
      unfold candidateIn tryDate
      rw [Bool.not_eq_true] at h1
      have h28 : dateOk y 2 28 = true := by
        rw [dateOk_iff, hnl]
        refine ⟨hy1, hy2, by omega, by omega, by omega, by decide⟩
      simp [h1, h28]

/-- Uniqueness: a well-formed date on which the record occurs is exactly
what `candidateIn` constructs for that date's year. -/
theorem occursOn_cand (m d : Nat) (dt : PyDate) (hwf : wf dt = true)
    (ho : occursOn m d dt) : candidateIn dt.year m d = some dt := by
  rcases ho with ⟨hm, hd⟩ | ⟨hm2, hd29, hnl, hdm, hdd⟩
  · have hok : dateOk dt.year m d = true := by
      rw [← hm, ← hd]
      exact hwf
    unfold candidateIn tryDate
    simp only [hok, if_true]
    cases dt
    simp_all
  · subst hm2
    subst hd29
    have hbad : dateOk dt.year 2 29 = true → False := by
      intro hc
      rw [dateOk_iff, hnl] at hc
      have : mlB false 2 = 28 := by decide
      omega
    have h28 : dateOk dt.year 2 28 = true := by
      rw [wf_iff] at hwf
      rw [dateOk_iff, hnl]
      refine ⟨hwf.1, hwf.2.1, by omega, by omega, by omega, by decide⟩
    unfold candidateIn tryDate
    rw [Bool.eq_false_iff.mpr hbad]
    simp only [Bool.false_eq_true, if_false, and_self, if_true, h28]
    cases dt
    simp_all

/-- Characterization of a successful `next_birthday`: the structure the
source's control flow guarantees. -/
theorem nb_spec (m d : Nat) (today next : PyDate)
    (h : next_birthday m d today = some next) :
    ∃ c, candidateIn today.year m d = some c ∧
      ((dateLt c today = false ∧ next = c) ∨
        (dateLt c today = true ∧ candidateIn (today.year + 1) m d = some next)) := by
  unfold next_birthday at h
  cases hc : candidateIn today.year m d with
  | none => rw [hc] at h; exact absurd h (by simp)
  | some c =>
    rw [hc] at h
    have h2 : (if dateLt c today = true then candidateIn (today.year + 1) m d else some c) =
        some next := h
    refine ⟨c, rfl, ?_⟩
    by_cases hlt : dateLt c today = true
    · rw [hlt] at h2
      simp only [if_true] at h2
      exact Or.inr ⟨hlt, h2⟩
    · rw [Bool.not_eq_true] at hlt
      rw [hlt] at h2
      simp only [Bool.false_eq_true, if_false] at h2
      injection h2 with h2
      exact Or.inl ⟨hlt, h2.symm⟩
theorem yearLen_eq_of_leap (y : Nat) (h : isLeap y = true) : yearLen y = 366 := by
  simp [yearLen, h]

theorem yearLen_eq_of_nonleap (y : Nat) (h : isLeap y = false) : yearLen y = 365 := by
  simp [yearLen, h]

theorem yearLen_bounds (y : Nat) : 365 ≤ yearLen y ∧ yearLen y ≤ 366 := by
  unfold yearLen
  split <;> omega

theorem ordYS_succ_len (y : Nat) (h : 1 ≤ y) : ordYS (y + 1) = ordYS y + yearLen y :=
  ordYS_succ y h

theorem yd_le_yearLen (y m d : Nat) (h1 : 1 ≤ m) (h2 : m ≤ 12) (h3 : 1 ≤ d)
    (h4 : d ≤ mlB (isLeap y) m) : dbmB (isLeap y) m + d ≤ yearLen y := by
  have h5 := (yd_bounds (isLeap y) m d h1 h2 h3 h4).2
  cases hl : isLeap y
  · rw [hl] at h5
    simp at h5
    rw [yearLen_eq_of_nonleap y hl]
    exact h5
  · rw [hl] at h5
    simp at h5
    rw [yearLen_eq_of_leap y hl]
    exact h5

/-- Totality of `next_birthday`: under the record invariant it succeeds
whenever the rollover to `today.year + 1` is not needed or stays within
the supported year range. -/
theorem nb_total (m d : Nat) (today : PyDate) (hwf : wf today = true)
    (hv : validMD m d = true)
    (hrange : today.year ≤ 9998 ∨
      ∃ c, candidateIn today.year m d = some c ∧ dateLt c today = false) :
    ∃ next, next_birthday m d today = some next := by
  have hy := (wf_iff today).mp hwf
  obtain ⟨c, hc⟩ := cand_total today.year m d hy.1 hy.2.1 hv
  have heq : next_birthday m d today =
      (if dateLt c today = true then candidateIn (today.year + 1) m d else some c) := by
    unfold next_birthday
    rw [hc]
  by_cases hlt : dateLt c today = true
  · have hy2 : today.year ≤ 9998 := by
      rcases hrange with h | ⟨c2, hc2, hlt2⟩
      · exact h
      · rw [hc] at hc2
        injection hc2 with e
        rw [← e] at hlt2
        rw [hlt2] at hlt
        exact absurd hlt (by simp)
    obtain ⟨c2, hc2⟩ := cand_total (today.year + 1) m d (by omega) (by omega) hv
    rw [heq, hlt]
    simp only [if_true]
    exact ⟨c2, hc2⟩
  · rw [Bool.not_eq_true] at hlt
    rw [heq, hlt]
    simp only [Bool.false_eq_true, if_false]
    exact ⟨c, rfl⟩

theorem dbmB_two (l : Bool) : dbmB l 2 = 31 := by cases l <;> decide

/-- The central quantitative fact: a computed next occurrence lies at
least zero and strictly fewer than 366 days ahead of `today`. -/
theorem nb_bounds (m d : Nat) (today next : PyDate) (hwf : wf today = true)
    (hv : validMD m d = true) (h : next_birthday m d today = some next) :
    0 ≤ daysDiff next today ∧ daysDiff next today < 366 := by
  obtain ⟨c, hc, hcase⟩ := nb_spec m d today next h
  obtain ⟨hcwf, hcy, hcform⟩ := cand_spec today.year m d c hc
  have htod := (wf_iff today).mp hwf
  have hydt := yd_le_yearLen today.year today.month today.day htod.2.2.1 htod.2.2.2.1
    htod.2.2.2.2.1 htod.2.2.2.2.2
  have hydtl := (yd_bounds (isLeap today.year) today.month today.day htod.2.2.1 htod.2.2.2.1
    htod.2.2.2.2.1 htod.2.2.2.2.2).1
  have hylb := yearLen_bounds today.year
  have hcwf2 := (wf_iff c).mp hcwf
  rw [hcy] at hcwf2
  rcases hcase with ⟨hge, hnc⟩ | ⟨hlt, hnext⟩
  · -- no rollover: today ≤ c lexicographically, same year
    have hlex : today.month < c.month ∨ (today.month = c.month ∧ today.day ≤ c.day) := by
      rw [Bool.eq_false_iff, ne_eq, dateLt_iff] at hge
      omega
    have hydc : dbmB (isLeap today.year) c.month + c.day ≤ yearLen today.year := by
      have := yd_le_yearLen today.year c.month c.day hcwf2.2.2.1 hcwf2.2.2.2.1
        hcwf2.2.2.2.2.1 hcwf2.2.2.2.2.2
      exact this
    have hmono := yd_le_of_lex (isLeap today.year) today.month today.day c.month c.day
      htod.2.2.1 hcwf2.2.2.2.1 htod.2.2.2.2.2 hcwf2.2.2.2.2.1 hlex
    rw [hnc]
    unfold daysDiff
    rw [toOrdinal_eq c, toOrdinal_eq today, hcy]
    constructor
    · omega
    · omega
  · -- rollover to today.year + 1
    obtain ⟨hnwf, hny, hnform⟩ := cand_spec (today.year + 1) m d next hnext
    rw [dateLt_iff] at hlt
    have hlex : c.month < today.month ∨ (c.month = today.month ∧ c.day < today.day) := by
      omega
    have hydlt := yd_lt_of_lex (isLeap today.year) c.month c.day today.month today.day
      hcwf2.2.2.1 htod.2.2.2.1 hcwf2.2.2.2.2.2 htod.2.2.2.2.1 hlex
    unfold daysDiff
    rw [toOrdinal_eq next, toOrdinal_eq today, hny, ordYS_succ_len today.year htod.1]
    rcases hcform with ⟨hce, hcok⟩ | ⟨hm2, hd29, hce, hcbad, hc28⟩
    · -- c is the plain (y, m, d)
      have hcm : c.month = m := by rw [hce]
      have hcd : c.day = d := by rw [hce]
      have hok := (dateOk_iff today.year m d).mp hcok
      rw [hcm, hcd] at hydlt
      rcases hnform with ⟨hne, hnok⟩ | ⟨hm2, hd29, hne, hnbad, hn28⟩
      · -- next is the plain (y + 1, m, d)
        have hnm : next.month = m := by rw [hne]
        have hnd : next.day = d := by rw [hne]
        rw [hnm, hnd]
        have hcmp := dbmB_leap_cmp m hok.2.2.2.1
        by_cases hl : isLeap today.year = true
        · have hl2 := isLeap_succ_of_isLeap today.year hl
          rw [hl] at hydlt hydt hydtl ⊢
          rw [hl2]
          rw [yearLen_eq_of_leap today.year hl] at hydt ⊢
          constructor <;> omega
        · rw [Bool.not_eq_true] at hl
          rw [hl] at hydlt hydt hydtl ⊢
          rw [yearLen_eq_of_nonleap today.year hl] at hydt ⊢
          cases hl2 : isLeap (today.year + 1)
          · constructor <;> omega
          · constructor <;> omega
      · -- next is the Feb 28 substitute, so (m, d) = (2, 29) and year y is leap
        subst hm2
        subst hd29
        have hnm : next.month = 2 := by rw [hne]
        have hnd : next.day = 28 := by rw [hne]
        rw [hnm, hnd]
        have hl : isLeap today.year = true := by
          by_contra hcon
          rw [Bool.not_eq_true] at hcon
          have h2 := (dateOk_iff today.year 2 29).mp hcok
          rw [hcon] at h2
          have : mlB false 2 = 28 := by decide
          omega
        have hl2 := isLeap_succ_of_isLeap today.year hl
        rw [hl] at hydlt hydt hydtl ⊢
        rw [dbmB_two] at hydlt
        rw [hl2, dbmB_two]
        rw [yearLen_eq_of_leap today.year hl] at hydt ⊢
        constructor <;> omega
    · -- c is the Feb 28 substitute: (m, d) = (2, 29), year y non-leap
      subst hm2
      subst hd29
      have hcm : c.month = 2 := by rw [hce]
      have hcd : c.day = 28 := by rw [hce]
      rw [hcm, hcd, dbmB_two] at hydlt
      have hl : isLeap today.year = false := by
        by_contra hcon
        rw [Bool.not_eq_false] at hcon
        have hok : dateOk today.year 2 29 = true := by
          rw [dateOk_iff, hcon]
          exact ⟨htod.1, htod.2.1, by omega, by omega, by omega, by decide⟩
        rw [hok] at hcbad
        simp at hcbad
      rw [hl] at hydlt hydt hydtl ⊢
      rw [yearLen_eq_of_nonleap today.year hl] at hydt ⊢
      rcases hnform with ⟨hne, hnok⟩ | ⟨hm2, hd29, hne, hnbad, hn28⟩
      · have hnm : next.month = 2 := by rw [hne]
        have hnd : next.day = 29 := by rw [hne]
        rw [hnm, hnd, dbmB_two]
        constructor <;> omega
      · have hnm : next.month = 2 := by rw [hne]
        have hnd : next.day = 28 := by rw [hne]
        rw [hnm, hnd, dbmB_two]
        constructor <;> omega

theorem dateLe_refl (a : PyDate) : dateLe a a = true := by
  rw [dateLe_iff]
  omega

theorem dateLe_of_not_lt (a b : PyDate) (h : dateLt a b = false) : dateLe b a = true := by
  rw [Bool.eq_false_iff, ne_eq, dateLt_iff] at h
  rw [dateLe_iff]
  omega

/-- What `candidateIn` builds occurs on the record's `(month, day)` in the
specification's sense. -/
theorem cand_occursOn (y m d : Nat) (c : PyDate) (h : candidateIn y m d = some c) :
    occursOn m d c := by
  obtain ⟨hcwf, hcy, hform⟩ := cand_spec y m d c h
  rcases hform with ⟨rfl, hok⟩ | ⟨hm2, hd29, rfl, hbad, h28⟩
  · exact Or.inl ⟨rfl, rfl⟩
  · subst hm2
    subst hd29
    refine Or.inr ⟨rfl, rfl, ?_, rfl, rfl⟩
    show isLeap y = false
    by_contra hcon
    rw [Bool.not_eq_false] at hcon
    have hr := (dateOk_iff y 2 28).mp h28
    have hok29 : dateOk y 2 29 = true := by
      rw [dateOk_iff, hcon]
      exact ⟨hr.1, hr.2.1, by omega, by omega, by omega, by decide⟩
    rw [hok29] at hbad
    simp at hbad

/-- Minimality: a successful `next_birthday` result is the soonest
well-formed date on or after `today` on which the record occurs. -/
theorem nb_soonest (m d : Nat) (today next : PyDate)
    (h : next_birthday m d today = some next) :
    wf next = true ∧ occursOn m d next ∧ dateLe today next = true ∧
      ∀ dt : PyDate, wf dt = true → occursOn m d dt → dateLe today dt = true →
        dateLe next dt = true := by
  obtain ⟨c, hc, hcase⟩ := nb_spec m d today next h
  obtain ⟨hcwf, hcy, _⟩ := cand_spec today.year m d c hc
  rcases hcase with ⟨hge, hnc⟩ | ⟨hlt, hnext⟩
  · rw [hnc]
    refine ⟨hcwf, cand_occursOn today.year m d c hc, dateLe_of_not_lt c today hge, ?_⟩
    intro dt hdt hodt hge2
    rw [dateLe_iff] at hge2
    by_cases hyy : dt.year = today.year
    · have hu : candidateIn dt.year m d = some dt := occursOn_cand m d dt hdt hodt
      rw [hyy, hc] at hu
      injection hu with e
      rw [e]
      exact dateLe_refl dt
    · rw [dateLe_iff]
      left
      omega
  · obtain ⟨hnwf, hny, _⟩ := cand_spec (today.year + 1) m d next hnext
    refine ⟨hnwf, cand_occursOn (today.year + 1) m d next hnext, ?_, ?_⟩
    · rw [dateLe_iff]
      left
      omega
    · intro dt hdt hodt hge2
      rw [dateLe_iff] at hge2
      have hu : candidateIn dt.year m d = some dt := occursOn_cand m d dt hdt hodt
      by_cases h1 : dt.year = today.year
      · exfalso
        rw [h1, hc] at hu
        injection hu with e
        rw [dateLt_iff] at hlt
        have e1 : c.month = dt.month := by rw [e]
        have e2 : c.day = dt.day := by rw [e]
        omega
      · by_cases h2 : dt.year = today.year + 1
        · rw [h2, hnext] at hu
          injection hu with e
          rw [e]
          exact dateLe_refl dt
        · rw [dateLe_iff]
          left
          rw [hny]
          omega

/-! ## Regular-expression fragment versus literal substring search -/
theorem goodChar_lower (c : Char) (h : goodChar c = true) : goodChar (lowerChar c) = true := by
  unfold lowerChar
  split <;> first | decide | exact h

theorem matchPre_lit (ls cs : List Char) :
    matchPre (ls.map RTok.lit) cs = List.isPrefixOf ls cs := by
  induction ls generalizing cs with
  | nil => cases cs <;> rfl
  | cons a as ih =>
    cases cs with
    | nil => rfl
    | cons c cs2 => simp [matchPre, List.isPrefixOf, ih]

theorem reSearch_lit (ls cs : List Char) :
    reSearch (ls.map RTok.lit) cs = isSubListOf ls cs := by
  induction cs with
  | nil =>
    cases ls with
    | nil => rfl
    | cons a as => rfl
  | cons c cs2 ih =>
    cases ls with
    | nil => simp [reSearch, isSubListOf, matchPre]
    | cons a as =>
      have e : reSearch (List.map RTok.lit (a :: as)) (c :: cs2) =
          (matchPre (List.map RTok.lit (a :: as)) (c :: cs2) ||
            reSearch (List.map RTok.lit (a :: as)) cs2) := rfl
      rw [e, matchPre_lit, ih]
      rfl

theorem reParseAux_lit (l : List Char) (h : l.all goodChar = true) :
    reParseAux l = some (l.map RTok.lit) := by
  induction l with
  | nil => rfl
  | cons c cs ih =>
    rw [List.all_cons, Bool.and_eq_true] at h
    have hg := h.1
    rw [goodChar, Bool.and_eq_true, Bool.not_eq_true', bne_iff_ne, ne_eq] at hg
    unfold reParseAux
    rw [if_neg (by rw [hg.1]; exact Bool.false_ne_true)]
    rw [ih h.2]
    simp [hg.2]

theorem splitCharAux_no_sep (sep : Char) (l : List Char) (acc : List Char)
    (h : ∀ c ∈ l, c ≠ sep) :
    splitCharAux sep l acc = [⟨acc.reverse ++ l⟩] := by
  induction l generalizing acc with
  | nil => simp [splitCharAux]
  | cons c cs ih =>
    have hc : c ≠ sep := h c (by simp)
    rw [splitCharAux, if_neg hc, ih (c :: acc) (fun x hx => h x (by simp [hx]))]
    simp

theorem splitCharAux_sep_append (sep : Char) (l rest acc : List Char)
    (h : ∀ c ∈ l, c ≠ sep) :
    splitCharAux sep (l ++ sep :: rest) acc = ⟨acc.reverse ++ l⟩ :: splitCharAux sep rest [] := by
  induction l generalizing acc with
  | nil => simp [splitCharAux]
  | cons c cs ih =>
    have hc : c ≠ sep := h c (by simp)
    rw [List.cons_append, splitCharAux, if_neg hc,
      ih (c :: acc) (fun x hx => h x (by simp [hx]))]
    simp

theorem splitLines_joinWithNl (ls : List String) (hne : ls ≠ [])
    (h : ∀ s ∈ ls, noNl s = true) : splitLines (joinWithNl ls) = ls := by
  induction ls with
  | nil => exact absurd rfl hne
  | cons a as ih =>
    cases as with
    | nil =>
      have ha : ∀ c ∈ a.data, c ≠ '\n' := by
        have := h a (by simp)
        rw [noNl, List.all_eq_true] at this
        intro c hc
        simpa using this c hc
      show splitCharAux '\n' a.data [] = [a]
      rw [splitCharAux_no_sep '\n' a.data [] ha]
      simp
    | cons b bs =>
      have ha : ∀ c ∈ a.data, c ≠ '\n' := by
        have := h a (by simp)
        rw [noNl, List.all_eq_true] at this
        intro c hc
        simpa using this c hc
      have hj : joinWithNl (a :: b :: bs) = a ++ "\n" ++ joinWithNl (b :: bs) := rfl
      rw [hj]
      show splitCharAux '\n' (a ++ "\n" ++ joinWithNl (b :: bs)).data [] = a :: b :: bs
      rw [String.data_append, String.data_append]
      have : ("\n".data : List Char) = ['\n'] := rfl
      rw [this]
      rw [List.append_assoc, List.singleton_append]
      rw [splitCharAux_sep_append '\n' a.data _ [] ha]
      have := ih (by simp) (fun s hs => h s (by simp [hs]))
      unfold splitLines splitChar at this
      rw [this]
      simp

/-! ## Newline-freedom of the generated calendar lines -/

theorem noNl_iff (s : String) : noNl s = true ↔ ∀ c ∈ s.data, c ≠ '\n' := by
  unfold noNl
  rw [List.all_eq_true]
  simp

theorem noNl_append (a b : String) (ha : noNl a = true) (hb : noNl b = true) :
    noNl (a ++ b) = true := by
  rw [noNl_iff] at ha hb ⊢
  rw [String.data_append]
  intro c hc
  rcases List.mem_append.mp hc with h | h
  · exact ha c h
  · exact hb c h

theorem digitChar_ne_nl (n : Nat) : digitChar n ≠ '\n' := by
  unfold digitChar
  split <;> decide

theorem natStrAux_ne_nl (f n : Nat) : ∀ c ∈ natStrAux f n, c ≠ '\n' := by
  induction f generalizing n with
  | zero => intro c hc; exact absurd hc (by simp [natStrAux])
  | succ f2 ih =>
    intro c hc
    rw [natStrAux] at hc
    by_cases hl : n < 10
    · rw [if_pos hl] at hc
      simp at hc
      rw [hc]
      exact digitChar_ne_nl n
    · rw [if_neg hl] at hc
      rcases List.mem_append.mp hc with h | h
      · exact ih (n / 10) c h
      · simp at h
        rw [h]
        exact digitChar_ne_nl (n % 10)

theorem noNl_natStr (n : Nat) : noNl (natStr n) = true := by
  rw [noNl_iff]
  exact natStrAux_ne_nl (n + 1) n

theorem noNl_intStr (i : Int) : noNl (intStr i) = true := by
  cases i with
  | ofNat n => exact noNl_natStr n
  | negSucc n => exact noNl_append "-" (natStr (n + 1)) (by decide) (noNl_natStr (n + 1))

theorem noNl_pad2 (n : Nat) : noNl (pad2 n) = true := by
  unfold pad2
  split
  · exact noNl_append "0" (natStr n) (by decide) (noNl_natStr n)
  · exact noNl_natStr n

theorem noNl_pad4 (n : Nat) : noNl (pad4 n) = true := by
  unfold pad4
  split
  · exact noNl_append "000" (natStr n) (by decide) (noNl_natStr n)
  · split
    · exact noNl_append "00" (natStr n) (by decide) (noNl_natStr n)
    · split
      · exact noNl_append "0" (natStr n) (by decide) (noNl_natStr n)
      · exact noNl_natStr n

theorem noNl_icsDt (dt : PyDate) : noNl (icsDt dt) = true :=
  noNl_append _ _ (noNl_append _ _ (noNl_pad4 dt.year) (noNl_pad2 dt.month)) (noNl_pad2 dt.day)

theorem noNl_underscoreSpaces (s : String) (h : noNl s = true) :
    noNl (underscoreSpaces s) = true := by
  rw [noNl_iff] at h ⊢
  unfold underscoreSpaces
  intro c hc
  simp at hc
  obtain ⟨x, hx, he⟩ := hc
  by_cases hsp : x = ' '
  · rw [hsp] at he
    simp at he
    rw [← he]
    decide
  · rw [if_neg hsp] at he
    rw [← he]
    exact h x hx

theorem noNl_uidOf (name : String) (m d : Nat) (h : noNl name = true) :
    noNl (uidOf name m d) = true := by
  unfold uidOf
  exact noNl_append _ _ (noNl_append _ _ (noNl_append _ _
    (noNl_append _ _ (noNl_underscoreSpaces name h) (by decide)) (noNl_pad2 m))
    (noNl_pad2 d)) (by decide)

theorem noNl_summaryLine (r : Row) (h : noNl r.name = true) :
    noNl (summaryLine r) = true := by
  unfold summaryLine
  apply noNl_append
  · exact noNl_append _ _ (by decide) h
  · cases r.turning with
    | none => decide
    | some t => exact noNl_append " turns " (intStr t) (by decide) (noNl_intStr t)

theorem eventLines_clean (r : Row) (hn : noNl r.name = true) (ho : noNl r.notes = true) :
    ∀ l ∈ eventLines r, noNl l = true := by
  intro l hl
  unfold eventLines at hl
  simp only [List.mem_cons, List.not_mem_nil, or_false] at hl
  rcases hl with rfl | rfl | rfl | rfl | rfl | rfl | rfl
  · decide
  · exact noNl_append "UID:" _ (by decide) (noNl_uidOf r.name r.month r.day hn)
  · exact noNl_append _ _ (by decide) (noNl_icsDt r.next_date)
  · unfold rruleLine
    exact noNl_append _ _ (noNl_append _ _ (noNl_append _ _ (by decide)
      (noNl_natStr r.month)) (by decide)) (noNl_natStr r.day)
  · exact noNl_summaryLine r hn
  · exact noNl_append "DESCRIPTION:" _ (by decide) ho
  · decide

theorem headerLines_clean (cal : String) (hc : noNl cal = true) :
    ∀ l ∈ headerLines cal, noNl l = true := by
  intro l hl
  unfold headerLines at hl
  simp only [List.mem_cons, List.not_mem_nil, or_false] at hl
  rcases hl with rfl | rfl | rfl | rfl
  · decide
  · decide
  · exact noNl_append "X-WR-CALNAME:" cal (by decide) hc
  · decide

/-! ## Line-by-line structure of the generated document -/

/-- The lines of a `make_ics` document on a nonempty, newline-clean input. -/
theorem make_ics_lines (rows : List Row) (cal : String) (hne : rows ≠ [])
    (hcal : noNl cal = true)
    (hclean : ∀ r ∈ rows, noNl r.name = true ∧ noNl r.notes = true) :
    splitLines (make_ics rows cal) =
      headerLines cal ++ rows.flatMap eventLines ++ ["END:VCALENDAR"] := by
  unfold make_ics
  rw [if_neg (by simp [hne])]
  apply splitLines_joinWithNl
  · simp [headerLines]
  · intro s hs
    rcases List.mem_append.mp hs with hs2 | hs2
    · rcases List.mem_append.mp hs2 with hs3 | hs3
      · exact headerLines_clean cal hcal s hs3
      · obtain ⟨r, hr, hsr⟩ := List.mem_flatMap.mp hs3
        exact eventLines_clean r (hclean r hr).1 (hclean r hr).2 s hsr
    · simp at hs2
      rw [hs2]
      decide

theorem uid_ne_marker (s : String) : "BEGIN:VEVENT" ≠ "UID:" ++ s := by
  intro h
  have h2 := congrArg String.data h
  rw [String.data_append] at h2
  simp at h2

theorem dtstart_ne_marker (s : String) : "BEGIN:VEVENT" ≠ "DTSTART;VALUE=DATE:" ++ s := by
  intro h
  have h2 := congrArg String.data h
  rw [String.data_append] at h2
  simp at h2

theorem rrule_ne_marker (m d : Nat) : "BEGIN:VEVENT" ≠ rruleLine m d := by
  intro h
  unfold rruleLine at h
  have h2 := congrArg String.data h
  simp only [String.data_append] at h2
  simp at h2

theorem summary_ne_marker (r : Row) : "BEGIN:VEVENT" ≠ summaryLine r := by
  intro h
  unfold summaryLine at h
  have h2 := congrArg String.data h
  simp only [String.data_append] at h2
  simp at h2

theorem desc_ne_marker (s : String) : "BEGIN:VEVENT" ≠ "DESCRIPTION:" ++ s := by
  intro h
  have h2 := congrArg String.data h
  rw [String.data_append] at h2
  simp at h2

theorem xwr_ne_marker (s : String) : "BEGIN:VEVENT" ≠ "X-WR-CALNAME:" ++ s := by
  intro h
  have h2 := congrArg String.data h
  rw [String.data_append] at h2
  simp at h2

/-- Each event block contributes exactly one `BEGIN:VEVENT` line. -/
theorem count_eventLines (r : Row) : (eventLines r).count "BEGIN:VEVENT" = 1 := by
  unfold eventLines uidLine
  rw [List.count_cons_self]
  rw [List.count_cons_of_ne (uid_ne_marker _)]
  rw [List.count_cons_of_ne (dtstart_ne_marker _)]
  rw [List.count_cons_of_ne (rrule_ne_marker _ _)]
  rw [List.count_cons_of_ne (summary_ne_marker _)]
  rw [List.count_cons_of_ne (desc_ne_marker _)]
  rw [List.count_cons_of_ne (by decide)]
  rfl

theorem count_headerLines (cal : String) : (headerLines cal).count "BEGIN:VEVENT" = 0 := by
  unfold headerLines
  rw [List.count_cons_of_ne (by decide)]
  rw [List.count_cons_of_ne (by decide)]
  rw [List.count_cons_of_ne (xwr_ne_marker _)]
  rw [List.count_cons_of_ne (by decide)]
  rfl

theorem count_flatMap_eventLines (rows : List Row) :
    (rows.flatMap eventLines).count "BEGIN:VEVENT" = rows.length := by
  induction rows with
  | nil => rfl
  | cons r rs ih =>
    rw [List.flatMap_cons, List.count_append, count_eventLines, ih, List.length_cons]
    omega

/-! ## The filter block: helper lemmas -/

theorem reSearch_nil (cs : List Char) : reSearch [] cs = true := by
  cases cs <;> rfl

theorem filter_filter_and (p q : Row → Bool) (l : List Row) :
    (l.filter p).filter q = l.filter (fun r => p r && q r) := by
  induction l with
  | nil => rfl
  | cons a as ih =>
    by_cases hp : p a = true
    · by_cases hq : q a = true <;> simp [List.filter_cons, hp, hq, ih]
    · rw [Bool.not_eq_true] at hp
      simp [List.filter_cons, hp, ih]

/-- On queries built purely from literal characters, the implemented
filter coincides with the specification's literal substring filter. -/
theorem filterRecords_literal (rows : List Row) (q : String) (k : Option Int)
    (h : q.data.all goodChar = true) :
    filterRecords rows q k = some (specFilter rows q k) := by
  have hlow : ((lowerStr q).data).all goodChar = true := by
    unfold lowerStr
    rw [List.all_eq_true] at h ⊢
    intro c hc
    obtain ⟨x, hx, rfl⟩ := List.mem_map.mp hc
    exact goodChar_lower x (h x hx)
  have hpred : ∀ r ∈ rows, rowMatches ((lowerStr q).data.map RTok.lit) r =
      (substrCI q r.name || substrCI q r.notes) := by
    intro r _
    unfold rowMatches substrCI
    rw [reSearch_lit, reSearch_lit]
  unfold filterRecords
  rw [reParseAux_lit _ hlow]
  cases k with
  | none =>
    show some (rows.filter (rowMatches ((lowerStr q).data.map RTok.lit))) = _
    unfold specFilter
    have hpt : ∀ r ∈ rows, rowMatches ((lowerStr q).data.map RTok.lit) r =
        ((substrCI q r.name || substrCI q r.notes) &&
          (match (none : Option Int) with
           | none => true
           | some k2 => decide (r.days_until ≤ k2))) := by
      intro r hr
      rw [hpred r hr]
      show _ = ((substrCI q r.name || substrCI q r.notes) && true)
      rw [Bool.and_true]
    rw [List.filter_congr hpt]
  | some kk =>
    show some ((rows.filter (rowMatches ((lowerStr q).data.map RTok.lit))).filter
      (fun r => decide (r.days_until ≤ kk))) = _
    unfold specFilter
    rw [List.filter_congr hpred, filter_filter_and]

theorem filterRecords_empty_query (rows : List Row) :
    filterRecords rows "" none = some rows := by
  unfold filterRecords
  show some (rows.filter (rowMatches [])) = some rows
  have : ∀ r ∈ rows, rowMatches [] r = (fun _ : Row => true) r := by
    intro r _
    unfold rowMatches
    rw [reSearch_nil, reSearch_nil]
    rfl
  rw [List.filter_congr this, List.filter_true]

theorem filterRecords_sublist (rows : List Row) (q : String) (k : Option Int)
    (out : List Row) (h : filterRecords rows q k = some out) : out.Sublist rows := by
  unfold filterRecords at h
  cases hp : reParseAux (lowerStr q).data with
  | none => rw [hp] at h; exact absurd h (by simp)
  | some ts =>
    rw [hp] at h
    cases k with
    | none =>
      have h2 : some (rows.filter (rowMatches ts)) = some out := h
      injection h2 with h2
      rw [← h2]
      exact List.filter_sublist rows
    | some kk =>
      have h2 : some ((rows.filter (rowMatches ts)).filter
          (fun r => decide (r.days_until ≤ kk))) = some out := h
      injection h2 with h2
      rw [← h2]
      exact (List.filter_sublist _).trans (List.filter_sublist rows)

/-! ## The sort order of `load_birthdays` -/

theorem lexLt_trans (a : List Char) : ∀ b c, lexLt a b = true → lexLt b c = true →
    lexLt a c = true := by
  induction a with
  | nil =>
    intro b c h1 h2
    cases b with
    | nil => exact absurd h1 (by simp [lexLt])
    | cons y ys =>
      cases c with
      | nil => exact absurd h2 (by simp [lexLt])
      | cons z zs => rfl
  | cons x xs ih =>
    intro b c h1 h2
    cases b with
    | nil => exact absurd h1 (by simp [lexLt])
    | cons y ys =>
      cases c with
      | nil => exact absurd h2 (by simp [lexLt])
      | cons z zs =>
        rw [lexLt, Bool.or_eq_true, Bool.and_eq_true, decide_eq_true_eq, beq_iff_eq] at h1 h2 ⊢
        rcases h1 with h1 | ⟨h1e, h1r⟩ <;> rcases h2 with h2 | ⟨h2e, h2r⟩
        · exact Or.inl (lt_trans h1 h2)
        · rw [h2e] at h1
          exact Or.inl h1
        · rw [h1e]
          exact Or.inl h2
        · rw [h1e, h2e]
          exact Or.inr ⟨rfl, ih ys zs h1r h2r⟩

theorem lexLt_false_antisymm (a : List Char) : ∀ b, lexLt a b = false → lexLt b a = false →
    a = b := by
  induction a with
  | nil =>
    intro b h1 _
    cases b with
    | nil => rfl
    | cons y ys => exact absurd h1 (by simp [lexLt])
  | cons x xs ih =>
    intro b h1 h2
    cases b with
    | nil => exact absurd h2 (by simp [lexLt])
    | cons y ys =>
      rcases lt_trichotomy x y with h | h | h
      · exfalso
        have : lexLt (x :: xs) (y :: ys) = true := by
          rw [lexLt, Bool.or_eq_true, decide_eq_true_eq]
          exact Or.inl h
        rw [this] at h1
        exact absurd h1 (by simp)
      · subst h
        rw [lexLt] at h1 h2
        simp [lt_irrefl] at h1 h2
        rw [ih ys h1 h2]
      · exfalso
        have : lexLt (y :: ys) (x :: xs) = true := by
          rw [lexLt, Bool.or_eq_true, decide_eq_true_eq]
          exact Or.inl h
        rw [this] at h2
        exact absurd h2 (by simp)

theorem lexLt_irrefl (a : List Char) : lexLt a a = false := by
  induction a with
  | nil => rfl
  | cons x xs ih => simp [lexLt, lt_irrefl, ih]

theorem rowLe_total (a b : Row) : rowLe a b = true ∨ rowLe b a = true := by
  unfold rowLe
  rcases lt_trichotomy a.days_until b.days_until with h | h | h
  · left
    simp [h]
  · by_cases hn : strLtB b.name a.name = true
    · right
      have hab : strLtB a.name b.name = false := by
        by_contra hc
        rw [Bool.not_eq_false] at hc
        unfold strLtB at hn hc
        have := lexLt_trans _ _ _ hn hc
        rw [lexLt_irrefl] at this
        exact absurd this (by simp)
      simp [h, hab]
    · left
      rw [Bool.not_eq_true] at hn
      simp [h, hn]
  · right
    simp [h]

theorem rowLe_trans (a b c : Row) (h1 : rowLe a b = true) (h2 : rowLe b c = true) :
    rowLe a c = true := by
  unfold rowLe at h1 h2 ⊢
  rw [Bool.or_eq_true, Bool.and_eq_true, decide_eq_true_eq, beq_iff_eq,
    Bool.not_eq_true'] at h1 h2 ⊢
  rcases h1 with h1 | ⟨h1e, h1n⟩ <;> rcases h2 with h2 | ⟨h2e, h2n⟩
  · exact Or.inl (lt_trans h1 h2)
  · rw [h2e] at h1
    exact Or.inl h1
  · rw [h1e]
    exact Or.inl h2
  · refine Or.inr ⟨by rw [h1e, h2e], ?_⟩
    unfold strLtB at h1n h2n ⊢
    by_contra hc
    rw [Bool.not_eq_false] at hc
    cases hbc : lexLt b.name.data c.name.data with
    | false =>
      have he := lexLt_false_antisymm _ _ h2n hbc
      rw [he] at hc
      rw [h1n] at hc
      exact absurd hc (by simp)
    | true =>
      have := lexLt_trans _ _ _ hbc hc
      rw [this] at h1n
      exact absurd h1n (by simp)

instance : IsTotal Row rowLeP := ⟨fun a b => rowLe_total a b⟩

instance : IsTrans Row rowLeP := ⟨fun a b c h1 h2 => rowLe_trans a b c h1 h2⟩

theorem load_birthdays_pairwise (today : PyDate) (rows : List RawRow) (out : List Row)
    (h : load_birthdays today rows = some out) : List.Pairwise rowLeP out := by
  unfold load_birthdays at h
  cases hb : buildRows today rows with
  | none => rw [hb] at h; exact absurd h (by simp)
  | some l =>
    rw [hb] at h
    have h2 : some (List.insertionSort rowLeP l) = some out := h
    injection h2 with h2
    rw [← h2]
    exact List.sorted_insertionSort rowLeP l

/-- Inversion of the record construction of the row loop. -/
theorem mkRecord_inv (name notes : String) (m d : Nat) (yr : Option Nat) (today : PyDate)
    (r : Row) (h : mkRecord name notes m d yr today = some r) :
    next_birthday m d today = some r.next_date ∧
      r.days_until = daysDiff r.next_date today ∧
      r.is_today = (r.days_until == 0) := by
  unfold mkRecord at h
  cases hnb : next_birthday m d today with
  | none =>
    rw [hnb] at h
    cases hta : turning_age yr m d today with
    | none =>
      rw [hta] at h
      have h2 : (none : Option Row) = some r := h
      exact absurd h2 (by simp)
    | some t =>
      rw [hta] at h
      have h2 : (none : Option Row) = some r := h
      exact absurd h2 (by simp)
  | some nb =>
    rw [hnb] at h
    cases hta : turning_age yr m d today with
    | none =>
      rw [hta] at h
      have h2 : (none : Option Row) = some r := h
      exact absurd h2 (by simp)
    | some t =>
      rw [hta] at h
      have h2 : some ({ name := name, month := m, day := d, year := yr,
                        notes := notes, next_date := nb,
                        days_until := daysDiff nb today, turning := t,
                        is_today := daysDiff nb today == 0 } : Row) = some r := h
      injection h2 with h2
      rw [← h2]
      exact ⟨rfl, rfl, rfl⟩

theorem dateLt_self_false (a : PyDate) : dateLt a a = false := by
  rw [Bool.eq_false_iff, ne_eq, dateLt_iff]
  omega

/-- When the record occurs exactly on `today`, `next_birthday` returns `today`. -/
theorem nb_today (m d : Nat) (today : PyDate) (hwf : wf today = true)
    (ho : occursOn m d today) : next_birthday m d today = some today := by
  have heq : next_birthday m d today =
      (if dateLt today today = true then candidateIn (today.year + 1) m d else some today) := by
    unfold next_birthday
    rw [occursOn_cand m d today hwf ho]
  rw [heq, dateLt_self_false today]
  simp

/-! ## The claims -/

/-- C1 (counterexample): `make_ics` on an empty collection returns the
empty byte string, not a document with envelope headers — refuting the
claim that an empty input yields a valid empty-envelope document. -/
theorem claim_C1_counterexample : make_ics [] "Birthday Board" = "" := rfl

/-- C1 (amended): `buildRecurringCalendar` (`make_ics`) applied to an
empty collection returns the empty byte string, with no envelope headers,
for every calendar name. -/
theorem claim_C1_amended : ∀ cal_name : String, make_ics [] cal_name = "" :=
  fun _ => rfl

/-- C2 (code bug): the two-field fast path of `parse_date_cell` performs
no calendar validation, so the text `"13-45"` — which denotes no calendar
day-of-year, as month 13 does not exist — is accepted and returned as
`(13, 45, None)` instead of raising `InvalidDateSpec`/`ValueError`. -/
theorem claim_C2_code_bug :
    (∀ dy : Nat, parse_date_cell dy (some "13-45") = some (13, 45, none)) ∧
      validMD 13 45 = false ∧ (∀ y : Nat, dateOk y 13 45 = false) := by
  refine ⟨fun dy => rfl, by decide, fun y => ?_⟩
  unfold dateOk monthLen
  simp [mlB]

/-- C3 (counterexample): the filter treats the query as a regular
expression, not literal text: the query `"a.c"` matches the record named
`"abc"` although `"a.c"` is not a (case-insensitive) substring of either
its name or its notes. -/
theorem claim_C3_counterexample :
    filterRecords [⟨"abc", 1, 1, none, "", ⟨2025, 1, 1⟩, 0, none, true⟩] "a.c" none =
      some [⟨"abc", 1, 1, none, "", ⟨2025, 1, 1⟩, 0, none, true⟩] ∧
      substrCI "a.c" "abc" = false ∧ substrCI "a.c" "" = false := by
  refine ⟨?_, by decide, by decide⟩
  decide

/-- C3 (amended): the filter hands the query to the regular-expression
search of `str.contains` (pandas default `regex=True`).  For queries
containing no regular-expression metacharacter it coincides with the
case-insensitive literal substring semantics the claim states, including
the `days_until ≤ maxDaysUntil` cut; the empty query matches every
record. -/
theorem claim_C3_amended :
    (∀ (rows : List Row) (q : String) (k : Option Int), q.data.all goodChar = true →
        filterRecords rows q k = some (specFilter rows q k)) ∧
      (∀ rows : List Row, filterRecords rows "" none = some rows) :=
  ⟨fun rows q k h => filterRecords_literal rows q k h,
   fun rows => filterRecords_empty_query rows⟩

/-- C3 (witness): a literal query on a concrete record list. -/
theorem claim_C3_witness :
    filterRecords [⟨"Ada", 12, 10, none, "pioneer", ⟨2025, 12, 10⟩, 3, none, false⟩]
        "ad" (some 5) =
      some (specFilter [⟨"Ada", 12, 10, none, "pioneer", ⟨2025, 12, 10⟩, 3, none, false⟩]
        "ad" (some 5)) :=
  claim_C3_amended.1 _ "ad" (some 5) (by decide)

/-- C4 (counterexample): for `now = 9999-06-01` and the valid record
`(5, 27)` the code does not return the soonest matching date — it raises,
because the same-year candidate `9999-05-27` lies before `now` and the
rollover constructs `date(10000, 5, 27)`, which is out of range. -/
theorem claim_C4_counterexample :
    next_birthday 5 27 ⟨9999, 6, 1⟩ = none ∧
      wf ⟨9999, 6, 1⟩ = true ∧ validMD 5 27 = true := by
  refine ⟨?_, by decide, by decide⟩
  decide

/-- C4 (amended): for every valid `(month, day)` and reference date
`now`, *provided the year rollover stays inside the supported range*
(`now.year ≤ 9998`, or the same-year candidate is not before `now`),
`next_birthday` returns the soonest well-formed calendar date on or
after `now` on which the record occurs (Feb 29 mapping to Feb 28 in
non-leap target years); the candidate is taken in `now`'s year and the
rollover to `now.year + 1` happens exactly when the same-year candidate
is strictly before `now`. -/
theorem claim_C4_amended (m d : Nat) (today : PyDate) (hwf : wf today = true)
    (hv : validMD m d = true)
    (hrange : today.year ≤ 9998 ∨
      ∃ c0, candidateIn today.year m d = some c0 ∧ dateLt c0 today = false) :
    ∃ next, next_birthday m d today = some next ∧ wf next = true ∧ occursOn m d next ∧
      dateLe today next = true ∧
      (∀ dt : PyDate, wf dt = true → occursOn m d dt → dateLe today dt = true →
        dateLe next dt = true) ∧
      (∃ c, candidateIn today.year m d = some c ∧
        ((dateLt c today = false ∧ next = c) ∨
          (dateLt c today = true ∧ candidateIn (today.year + 1) m d = some next ∧
            next.year = today.year + 1))) := by
  obtain ⟨next, hnb⟩ := nb_total m d today hwf hv hrange
  obtain ⟨hnwf, ho, hle, hmin⟩ := nb_soonest m d today next hnb
  obtain ⟨c, hc, hcase⟩ := nb_spec m d today next hnb
  refine ⟨next, hnb, hnwf, ho, hle, hmin, c, hc, ?_⟩
  rcases hcase with ⟨h1, h2⟩ | ⟨h1, h2⟩
  · exact Or.inl ⟨h1, h2⟩
  · exact Or.inr ⟨h1, h2, (cand_spec (today.year + 1) m d next h2).2.1⟩

/-- C4 (witness): the record `(5, 27)` against `now = 2025-05-01`. -/
theorem claim_C4_witness :
    ∃ next, next_birthday 5 27 ⟨2025, 5, 1⟩ = some next ∧ wf next = true ∧
      occursOn 5 27 next ∧ dateLe ⟨2025, 5, 1⟩ next = true ∧
      (∀ dt : PyDate, wf dt = true → occursOn 5 27 dt → dateLe ⟨2025, 5, 1⟩ dt = true →
        dateLe next dt = true) ∧
      (∃ c, candidateIn 2025 5 27 = some c ∧
        ((dateLt c ⟨2025, 5, 1⟩ = false ∧ next = c) ∨
          (dateLt c ⟨2025, 5, 1⟩ = true ∧ candidateIn 2026 5 27 = some next ∧
            next.year = 2026))) :=
  claim_C4_amended 5 27 ⟨2025, 5, 1⟩ (by decide) (by decide) (Or.inl (by decide))

/-- C5: for every valid record and reference date, a successfully built
row has `0 ≤ days_until < 366` and `is_today` exactly when
`days_until = 0`; a record occurring exactly on `today` yields
`days_until = 0` and `is_today = true` (never a 365/366 rollover), and
`next_birthday` then returns `today` itself. -/
theorem claim_C5 (m d : Nat) (today : PyDate) (name notes : String) (yr : Option Nat)
    (hwf : wf today = true) (hv : validMD m d = true) :
    (∀ r : Row, mkRecord name notes m d yr today = some r →
        0 ≤ r.days_until ∧ r.days_until < 366 ∧ r.is_today = (r.days_until == 0) ∧
          (occursOn m d today → r.days_until = 0 ∧ r.is_today = true)) ∧
      (occursOn m d today → next_birthday m d today = some today) := by
  constructor
  · intro r h
    obtain ⟨hnb, hdu, hit⟩ := mkRecord_inv name notes m d yr today r h
    obtain ⟨hge, hlt⟩ := nb_bounds m d today r.next_date hwf hv hnb
    refine ⟨by rw [hdu]; exact hge, by rw [hdu]; exact hlt, hit, ?_⟩
    intro ho
    have hto := nb_today m d today hwf ho
    rw [hnb] at hto
    injection hto with hto
    have hdu0 : r.days_until = 0 := by
      rw [hdu, ← hto]
      unfold daysDiff
      omega
    refine ⟨hdu0, ?_⟩
    rw [hit, hdu0]
    rfl
  · intro ho
    exact nb_today m d today hwf ho

/-- C5 (witness): a record due exactly on the reference date. -/
theorem claim_C5_witness :
    0 ≤ (⟨"A", 5, 27, none, "", ⟨2025, 5, 27⟩, 0, none, true⟩ : Row).days_until ∧
      (⟨"A", 5, 27, none, "", ⟨2025, 5, 27⟩, 0, none, true⟩ : Row).days_until < 366 ∧
      (⟨"A", 5, 27, none, "", ⟨2025, 5, 27⟩, 0, none, true⟩ : Row).is_today =
        ((⟨"A", 5, 27, none, "", ⟨2025, 5, 27⟩, 0, none, true⟩ : Row).days_until == 0) ∧
      (occursOn 5 27 ⟨2025, 5, 27⟩ →
        (⟨"A", 5, 27, none, "", ⟨2025, 5, 27⟩, 0, none, true⟩ : Row).days_until = 0 ∧
        (⟨"A", 5, 27, none, "", ⟨2025, 5, 27⟩, 0, none, true⟩ : Row).is_today = true) :=
  (claim_C5 5 27 ⟨2025, 5, 27⟩ "A" "" none (by decide) (by decide)).1 _ (by decide)

/-- C6: a two-part dash text yields no year; a one-slash text yields no
year even though the underlying general parser default-fills the current
year (`defaultYear`); a full three-part date yields its explicit year;
and `turning_age` is present in the result exactly when the origin year
is present. -/
theorem claim_C6 :
    (∀ dy : Nat, parse_date_cell dy (some "05-27") = some (5, 27, none)) ∧
      (∀ dy : Nat, 1 ≤ dy → dy ≤ 9999 →
        parse_date_cell dy (some "5/27") = some (5, 27, none)) ∧
      (∀ dy : Nat, parse_date_cell dy (some "1990-05-27") = some (5, 27, some 1990)) ∧
      (∀ (yr : Option Nat) (m d : Nat) (today next : PyDate),
        next_birthday m d today = some next →
        turning_age yr m d today = some (yr.map fun y0 => (next.year : Int) - (y0 : Int))) ∧
      (∀ (yr : Option Nat) (m d : Nat) (today : PyDate) (t : Option Int),
        turning_age yr m d today = some t → (t.isSome ↔ yr.isSome)) := by
  refine ⟨fun dy => rfl, ?_, fun dy => rfl, ?_, ?_⟩
  · intro dy h1 h2
    have hok : dateOk dy 5 27 = true := by
      rw [dateOk_iff]
      exact ⟨h1, h2, by omega, by omega, by omega, by exact (by decide : (27:Nat) ≤ 31)⟩
    have hdu : dateutilParse dy "5/27" =
        (if dateOk dy 5 27 = true then some (dy, 5, 27) else none) := rfl
    have hpc : parse_date_cell dy (some "5/27") =
        (match dateutilParse dy "5/27" with
         | none => none
         | some (y, m2, d2) =>
           if countChar '-' "5/27" = 1 ∨
               (containsChar '/' "5/27" = true ∧ countChar '/' "5/27" = 1) then
             some (m2, d2, none)
           else some (m2, d2, some y)) := rfl
    rw [hpc, hdu, if_pos hok]
    show (if countChar '-' "5/27" = 1 ∨
        (containsChar '/' "5/27" = true ∧ countChar '/' "5/27" = 1) then
          some (5, 27, (none : Option Nat))
        else some (5, 27, some dy)) = some (5, 27, none)
    rw [if_pos (by decide)]
  · intro yr m d today next h
    cases yr with
    | none => rfl
    | some y0 =>
      unfold turning_age
      rw [h]
      rfl
  · intro yr m d today t h
    cases yr with
    | none =>
      unfold turning_age at h
      injection h with h
      rw [← h]
      simp
    | some y0 =>
      unfold turning_age at h
      cases hnb : next_birthday m d today with
      | none =>
        rw [hnb] at h
        exact absurd h (by simp)
      | some nb =>
        rw [hnb] at h
        have h2 : some (some ((nb.year : Int) - (y0 : Int))) = some t := h
        injection h2 with h2
        rw [← h2]
        simp

/-- C6 (witness): the year-present record of the specification's example
and the year-omitted slash form. -/
theorem claim_C6_witness :
    parse_date_cell 2025 (some "5/27") = some (5, 27, none) ∧
      turning_age (some 1990) 5 27 ⟨2025, 5, 1⟩ = some (some 35) := by
  refine ⟨claim_C6.2.1 2025 (by decide) (by decide), ?_⟩
  have h := claim_C6.2.2.2.1 (some 1990) 5 27 ⟨2025, 5, 1⟩ ⟨2025, 5, 27⟩ (by decide)
  rw [h]
  decide

/-- C7 (counterexample): a note containing a newline is spliced into the
document unescaped, so one record can forge a second `BEGIN:VEVENT`
line — the document for this single record contains two event-block
markers, not one. -/
theorem claim_C7_counterexample :
    countBlocks (make_ics
        [⟨"A", 1, 2, none, "x\nBEGIN:VEVENT\nEND:VEVENT", ⟨2025, 1, 2⟩, 3, none, false⟩]
        "Birthday Board") = 2 ∧
      ([(⟨"A", 1, 2, none, "x\nBEGIN:VEVENT\nEND:VEVENT", ⟨2025, 1, 2⟩, 3, none,
        false⟩ : Row)]).length = 1 := by
  exact ⟨by decide, rfl⟩

/-- C7 (amended): on a nonempty sequence of records whose names and notes
(and the calendar name) contain no newline, the document consists of the
envelope, exactly one seven-line block per record (so exactly N
`BEGIN:VEVENT` markers), and the closing line; each block's RRULE is
keyed by the record's canonical `(month, day)` (`next_date` enters only
the DTSTART anchor); the identifier line is a function of
`(name, month, day)` alone, so re-running on the same input is
byte-identical; the empty input yields zero blocks. -/
theorem claim_C7_amended (rows : List Row) (cal_name : String) (hne : rows ≠ [])
    (hcal : noNl cal_name = true)
    (hclean : ∀ r ∈ rows, noNl r.name = true ∧ noNl r.notes = true) :
    splitLines (make_ics rows cal_name) =
        headerLines cal_name ++ rows.flatMap eventLines ++ ["END:VCALENDAR"] ∧
      countBlocks (make_ics rows cal_name) = rows.length ∧
      (∀ r ∈ rows, rruleLine r.month r.day ∈ splitLines (make_ics rows cal_name)) ∧
      (∀ r1 r2 : Row, r1.name = r2.name → r1.month = r2.month → r1.day = r2.day →
        uidLine r1 = uidLine r2) ∧
      countBlocks (make_ics [] cal_name) = 0 := by
  have hml := make_ics_lines rows cal_name hne hcal hclean
  refine ⟨hml, ?_, ?_, ?_, rfl⟩
  · unfold countBlocks
    rw [hml, List.count_append, List.count_append, count_headerLines,
      count_flatMap_eventLines]
    have he : (["END:VCALENDAR"] : List String).count "BEGIN:VEVENT" = 0 := by decide
    rw [he]
    omega
  · intro r hr
    rw [hml]
    refine List.mem_append.mpr (Or.inl (List.mem_append.mpr (Or.inr ?_)))
    refine List.mem_flatMap.mpr ⟨r, hr, ?_⟩
    unfold eventLines
    simp
  · intro r1 r2 h1 h2 h3
    unfold uidLine uidOf
    rw [h1, h2, h3]

/-- C7 (witness): one clean record produces exactly one event block. -/
theorem claim_C7_witness :
    countBlocks (make_ics
        [⟨"Ada", 12, 10, some 1815, "Pioneer", ⟨2025, 12, 10⟩, 100, some 210, false⟩]
        "Birthday Board") =
      ([(⟨"Ada", 12, 10, some 1815, "Pioneer", ⟨2025, 12, 10⟩, 100, some 210,
        false⟩ : Row)]).length :=
  (claim_C7_amended _ "Birthday Board" (by decide) (by decide) (by decide)).2.1

/-- C8: `load_birthdays` ranks its output by `(days_until, name)`, both
ascending (the order `rowLeP`); `filterRecords` only ever removes rows,
preserving the established order (its output is a sublist of its input);
and on records due in 10, 0 and 5 days the empty-query filter yields the
engine order `[0, 5, 10]`. -/
theorem claim_C8 :
    (∀ (today : PyDate) (rows : List RawRow) (out : List Row),
        load_birthdays today rows = some out → List.Pairwise rowLeP out) ∧
      (∀ (rows : List Row) (q : String) (k : Option Int) (out : List Row),
        filterRecords rows q k = some out → out.Sublist rows) ∧
      ((load_birthdays ⟨2025, 1, 1⟩
          [⟨"Alice", some "01-11", ""⟩, ⟨"Bob", some "01-01", ""⟩,
           ⟨"Cara", some "01-06", ""⟩]).bind
        (fun out => filterRecords out "" none)).map (List.map Row.days_until) =
        some [0, 5, 10] := by
  refine ⟨load_birthdays_pairwise, filterRecords_sublist, ?_⟩
  decide

/-- C8 (witness): the sorted output of the three-record example is
pairwise ordered by `(days_until, name)`. -/
theorem claim_C8_witness :
    List.Pairwise rowLeP
      [⟨"Bob", 1, 1, none, "", ⟨2025, 1, 1⟩, 0, none, true⟩,
       ⟨"Cara", 1, 6, none, "", ⟨2025, 1, 6⟩, 5, none, false⟩,
       ⟨"Alice", 1, 11, none, "", ⟨2025, 1, 11⟩, 10, none, false⟩] :=
  claim_C8.1 ⟨2025, 1, 1⟩
    [⟨"Alice", some "01-11", ""⟩, ⟨"Bob", some "01-01", ""⟩, ⟨"Cara", some "01-06", ""⟩]
    _ (by decide)

/-- C9 (counterexample): `next_birthday` can raise even under the record
invariant: at `today = 9999-12-31` with the valid record `(1, 1)` the
rollover constructs `date(10000, 1, 1)`, which is out of range, and the
re-raise branch is reached — so the re-raise branches are not
unreachable. -/
theorem claim_C9_counterexample :
    next_birthday 1 1 ⟨9999, 12, 31⟩ = none ∧ wf ⟨9999, 12, 31⟩ = true ∧
      validMD 1 1 = true := by
  exact ⟨by decide, by decide, by decide⟩

/-- C9 (amended): under the record invariant, `next_birthday` never
raises provided the year rollover stays within the supported range
(`today.year ≤ 9998`, or the same-year candidate is on or after
`today`); in that region the only date-construction failure is
`(year, 2, 29)` in a non-leap year, recovered by the Feb 28
substitution. -/
theorem claim_C9_amended (m d : Nat) (today : PyDate) (hwf : wf today = true)
    (hv : validMD m d = true)
    (hrange : today.year ≤ 9998 ∨
      ∃ c, candidateIn today.year m d = some c ∧ dateLt c today = false) :
    (next_birthday m d today).isSome = true := by
  obtain ⟨next, h⟩ := nb_total m d today hwf hv hrange
  rw [h]
  rfl

/-- C9 (witness): the Feb 29 record against a non-leap year succeeds via
the substitution. -/
theorem claim_C9_witness : (next_birthday 2 29 ⟨2025, 3, 1⟩).isSome = true :=
  claim_C9_amended 2 29 ⟨2025, 3, 1⟩ (by decide) (by decide) (Or.inl (by decide))

/-- C10: event identifiers are stable but not unique: records agreeing on
name, month and day get identical UID lines whatever their origin years,
notes or derived fields, and a document holding two such records contains
the same UID line twice over two distinct event blocks. -/
theorem claim_C10 :
    (∀ (n no1 no2 : String) (m d : Nat) (y1 y2 : Option Nat) (nd1 nd2 : PyDate)
        (du1 du2 : Int) (t1 t2 : Option Int) (b1 b2 : Bool),
        uidLine ⟨n, m, d, y1, no1, nd1, du1, t1, b1⟩ =
          uidLine ⟨n, m, d, y2, no2, nd2, du2, t2, b2⟩) ∧
      (splitLines (make_ics
          [⟨"Ada", 1, 2, some 1990, "first", ⟨2025, 1, 2⟩, 3, some 35, false⟩,
           ⟨"Ada", 1, 2, some 1991, "second", ⟨2025, 1, 2⟩, 3, some 34, false⟩]
          "Birthday Board")).count "UID:Ada--0102@birthdayboard" = 2 ∧
      eventLines (⟨"Ada", 1, 2, some 1990, "first", ⟨2025, 1, 2⟩, 3, some 35,
          false⟩ : Row) ≠
        eventLines (⟨"Ada", 1, 2, some 1991, "second", ⟨2025, 1, 2⟩, 3, some 34,
          false⟩ : Row) := by
  exact ⟨fun n no1 no2 m d y1 y2 nd1 nd2 du1 du2 t1 t2 b1 b2 => rfl, by decide, by decide⟩

end BirthdayBoard
